import Mathlib

/-
Verification development for techduediligence.py.

The file gives a shallow embedding of the functions of the source file
(fetch_with_retry, the three ecosystem adapters, check_vulnerability,
fetch_package_info, process_packages, check_license_compatibility and the
license-analysis portion of generate_markdown) and proves the behavioural
properties claimed of them.  Network effects are embedded as oracles: a
function from the attempt index (for the retry loop) or from the request
data (for the single-shot calls) to the observed outcome of that request.
Sleeps and log statements are recorded in explicit traces.
-/

/-- The normalized metadata record an ecosystem adapter produces (a Python
dict in the source).  The license value can be a string or Python None
(PyPI serves null licenses), hence Option.  has_known_vulnerability is
absent from the dict until fetch_package_info sets it, hence Option. -/
structure PackageRecord where
  name : String
  description : String
  author : String
  license : Option String
  project_url : String
  release_date : String
  has_known_vulnerability : Option Bool
  deriving DecidableEq

/-- Outcome of one attempt of the retry loop in fetch_with_retry:
a 2xx response whose body parses to payload, an aiohttp
ClientResponseError carrying an HTTP status, or any other exception. -/
inductive AttemptResult (α : Type) where
  | ok (payload : α)
  | clientError (status : Nat)
  | exn (msg : String)
  deriving DecidableEq

/-- An error propagated out of fetch_with_retry by a raise statement. -/
inductive FetchErr where
  | clientResponseError (status : Nat)
  | exn (msg : String)
  deriving DecidableEq

/-- How a call to fetch_with_retry ends: a returned value (some payload
from a successful response, or none for the fall-through return None
after the loop) or a raised error. -/
inductive FetchResult (α : Type) where
  | val (v : Option α)
  | raised (e : FetchErr)
  deriving DecidableEq

/-- A log statement emitted by fetch_with_retry: the rate-limit warning
(with the delay about to be slept) or the error log of the generic
exception handler. -/
inductive FetchLog where
  | rateLimited (delay : Nat)
  | errorFetching (msg : String)
  deriving DecidableEq

/-- Observable trace of one call to fetch_with_retry: its outcome, the
number of attempts made, the sleeps performed (in order, in units of
base_delay = 1 second times the stated amount) and the log statements. -/
structure FetchTrace (α : Type) where
  result : FetchResult α
  attempts : Nat
  sleeps : List Nat
  logs : List FetchLog
  deriving DecidableEq

/-- The body of the for-loop of fetch_with_retry, one constructor case per
iteration.  fuel is the number of loop iterations still available and
attempt the current index, so the loop runs attempt = 0 .. max_retries-1
exactly as range(max_retries) does; attempts, sleeps and logs accumulate
the trace.  Mirrors src/techduediligence.py lines 17-35: a successful
response returns its JSON; a ClientResponseError with status 429 logs a
warning, sleeps base_delay * 2^attempt and retries; any other
ClientResponseError is re-raised at once; any other exception is logged,
re-raised if attempt == max_retries - 1, and otherwise followed by a flat
base_delay sleep and a retry; falling off the loop returns None. -/
def fetchGo (oracle : Nat → AttemptResult α) (max_retries base_delay : Nat) :
    Nat → Nat → Nat → List Nat → List FetchLog → FetchTrace α
  | 0, _, attempts, sleeps, logs => ⟨.val none, attempts, sleeps, logs⟩
  | fuel + 1, attempt, attempts, sleeps, logs =>
    match oracle attempt with
    | .ok v => ⟨.val (some v), attempts + 1, sleeps, logs⟩
    | .clientError s =>
      if s = 429 then
        fetchGo oracle max_retries base_delay fuel (attempt + 1) (attempts + 1)
          (sleeps ++ [base_delay * 2 ^ attempt]) (logs ++ [FetchLog.rateLimited (base_delay * 2 ^ attempt)])
      else ⟨.raised (.clientResponseError s), attempts + 1, sleeps, logs⟩
    | .exn m =>
      if attempt = max_retries - 1 then
        ⟨.raised (.exn m), attempts + 1, sleeps, logs ++ [FetchLog.errorFetching m]⟩
      else
        fetchGo oracle max_retries base_delay fuel (attempt + 1) (attempts + 1)
          (sleeps ++ [base_delay]) (logs ++ [FetchLog.errorFetching m])

/-- fetch_with_retry(session, url, max_retries, base_delay) with the
network abstracted as an oracle mapping each attempt index to that
attempt's outcome.  Source defaults are max_retries = 5, base_delay = 1. -/
def fetch_with_retry (oracle : Nat → AttemptResult α) (max_retries base_delay : Nat) :
    FetchTrace α :=
  fetchGo oracle max_retries base_delay max_retries 0 0 [] []

/-- Scenario oracle: N consecutive HTTP 429 responses, then success. -/
def oracle429 (N : Nat) (payload : α) : Nat → AttemptResult α :=
  fun i => if i < N then .clientError 429 else .ok payload

/-- Scenario oracle: every attempt fails with a non-HTTP exception. -/
def oracleAllExn (e : Nat → String) : Nat → AttemptResult α :=
  fun i => .exn (e i)

/-- Scenario oracle: every attempt is rate-limited with HTTP 429. -/
def oracleAll429 : Nat → AttemptResult α :=
  fun _ => .clientError 429

/-- Scenario oracle: every attempt fails with a fixed HTTP error status. -/
def oracleHttpFailure (status : Nat) : Nat → AttemptResult α :=
  fun _ => .clientError status

theorem fetchGo_429_then_ok (payload : α) (N m b : Nat) :
    ∀ fuel attempt attempts sleeps logs, attempt ≤ N → N < attempt + fuel →
    fetchGo (oracle429 N payload) m b fuel attempt attempts sleeps logs =
      ⟨.val (some payload), attempts + (N - attempt) + 1,
        sleeps ++ (List.range' attempt (N - attempt)).map (fun i => b * 2 ^ i),
        logs ++ (List.range' attempt (N - attempt)).map (fun i => FetchLog.rateLimited (b * 2 ^ i))⟩ := by
  intro fuel
  induction fuel with
  | zero => intro attempt attempts sleeps logs h1 h2; omega
  | succ f ih =>
    intro attempt attempts sleeps logs h1 h2
    by_cases hlt : attempt < N
    · have horacle : oracle429 N payload attempt = .clientError 429 := by
        simp [oracle429, hlt]
      rw [fetchGo, horacle]
      simp only [if_pos rfl]
      rw [ih (attempt + 1) (attempts + 1) _ _ (by omega) (by omega)]
      have hrange : List.range' attempt (N - attempt) =
          attempt :: List.range' (attempt + 1) (N - (attempt + 1)) := by
        have : N - attempt = (N - (attempt + 1)) + 1 := by omega
        rw [this, List.range'_succ]
      rw [hrange]
      simp [List.append_assoc]
      omega
    · have heq : attempt = N := by omega
      subst heq
      have horacle : oracle429 attempt payload attempt = .ok payload := by
        simp [oracle429]
      rw [fetchGo, horacle]
      simp

/-- C3: on N consecutive HTTP-429 responses followed by a success
(N strictly below max_retries), fetch_with_retry returns the successful
payload, sleeps base_delay * 2^i on the i-th attempt (i = 0 .. N-1) and
hence suspends in total for the sum of base_delay * 2^i over i < N. -/
theorem fetch_429_backoff (payload : α) (N m b : Nat) (h : N < m) :
    (fetch_with_retry (oracle429 N payload) m b).result = .val (some payload)
    ∧ (fetch_with_retry (oracle429 N payload) m b).sleeps =
        (List.range N).map (fun i => b * 2 ^ i)
    ∧ (fetch_with_retry (oracle429 N payload) m b).sleeps.sum =
        ∑ i ∈ Finset.range N, b * 2 ^ i := by
  have hmain := fetchGo_429_then_ok payload N m b m 0 0 [] [] (by omega) (by omega)
  have hsum : ∀ M : Nat, ((List.range M).map (fun i => b * 2 ^ i)).sum =
      ∑ i ∈ Finset.range M, b * 2 ^ i := by
    intro M
    induction M with
    | zero => simp
    | succ n ihn => rw [List.range_succ, Finset.sum_range_succ]; simp [ihn]
  rw [fetch_with_retry, hmain]
  refine ⟨rfl, ?_, ?_⟩
  · simp [List.range_eq_range' N]
  · simp only [Nat.sub_zero, List.nil_append]
    rw [← List.range_eq_range' N]
    exact hsum N

/-- Witness for fetch_429_backoff at N = 2, max_retries = 5, base_delay = 1. -/
theorem fetch_429_backoff_witness :
    (fetch_with_retry (oracle429 2 (0 : Nat)) 5 1).result = .val (some 0)
    ∧ (fetch_with_retry (oracle429 2 (0 : Nat)) 5 1).sleeps =
        (List.range 2).map (fun i => 1 * 2 ^ i)
    ∧ (fetch_with_retry (oracle429 2 (0 : Nat)) 5 1).sleeps.sum =
        ∑ i ∈ Finset.range 2, 1 * 2 ^ i :=
  fetch_429_backoff (0 : Nat) 2 5 1 (by omega)

/-- C2 counterexample: a non-429 HTTP error (status 500) on the very first
attempt is re-raised immediately: one single attempt, no sleep, no log and
no retry, contradicting the claimed flat-delay retries culminating after
exactly max_retries = 5 attempts. -/
theorem fetch_non429_immediate_raise_counterexample :
    fetch_with_retry (oracleHttpFailure 500 : Nat → AttemptResult Nat) 5 1 =
      ⟨.raised (.clientResponseError 500), 1, [], []⟩
    ∧ (fetch_with_retry (oracleHttpFailure 500 : Nat → AttemptResult Nat) 5 1).attempts ≠ 5
    ∧ (fetch_with_retry (oracleHttpFailure 500 : Nat → AttemptResult Nat) 5 1).sleeps ≠
        List.replicate 4 1 := by
  refine ⟨rfl, by decide, by decide⟩

theorem fetchGo_allExn (e : Nat → String) (m b : Nat) :
    ∀ fuel attempt attempts sleeps logs, 1 ≤ fuel → attempt + fuel = m →
    fetchGo (oracleAllExn e : Nat → AttemptResult Nat) m b fuel attempt attempts sleeps logs =
      ⟨.raised (.exn (e (m - 1))), attempts + fuel,
        sleeps ++ List.replicate (fuel - 1) b,
        logs ++ (List.range' attempt fuel).map (fun i => FetchLog.errorFetching (e i))⟩ := by
  intro fuel
  induction fuel with
  | zero => intro attempt attempts sleeps logs h1 h2; omega
  | succ f ih =>
    intro attempt attempts sleeps logs h1 h2
    rw [fetchGo]
    show (match oracleAllExn e attempt with
      | .ok v => (⟨.val (some v), attempts + 1, sleeps, logs⟩ : FetchTrace Nat)
      | .clientError s =>
        if s = 429 then
          fetchGo (oracleAllExn e) m b f (attempt + 1) (attempts + 1)
            (sleeps ++ [b * 2 ^ attempt]) (logs ++ [FetchLog.rateLimited (b * 2 ^ attempt)])
        else ⟨.raised (.clientResponseError s), attempts + 1, sleeps, logs⟩
      | .exn msg =>
        if attempt = m - 1 then
          ⟨.raised (.exn msg), attempts + 1, sleeps, logs ++ [FetchLog.errorFetching msg]⟩
        else
          fetchGo (oracleAllExn e) m b f (attempt + 1) (attempts + 1)
            (sleeps ++ [b]) (logs ++ [FetchLog.errorFetching msg])) = _
    simp only [oracleAllExn]
    match f, h1 with
    | 0, _ =>
      have hlast : attempt = m - 1 := by omega
      rw [if_pos hlast]
      simp [hlast, List.range'_succ]
    | f' + 1, _ =>
      have hnotlast : ¬ attempt = m - 1 := by omega
      rw [if_neg hnotlast]
      rw [ih (attempt + 1) (attempts + 1) _ _ (by omega) (by omega)]
      have hrange : List.range' attempt (f' + 2) =
          attempt :: List.range' (attempt + 1) (f' + 1) := by
        rw [List.range'_succ]
      rw [hrange]
      simp [List.replicate_succ, List.append_assoc, Nat.add_sub_cancel]
      omega

theorem fetchGo_all429 (m b : Nat) :
    ∀ fuel attempt attempts sleeps logs,
    fetchGo (oracleAll429 : Nat → AttemptResult Nat) m b fuel attempt attempts sleeps logs =
      ⟨.val none, attempts + fuel,
        sleeps ++ (List.range' attempt fuel).map (fun i => b * 2 ^ i),
        logs ++ (List.range' attempt fuel).map (fun i => FetchLog.rateLimited (b * 2 ^ i))⟩ := by
  intro fuel
  induction fuel with
  | zero => intro attempt attempts sleeps logs; simp [fetchGo]
  | succ f ih =>
    intro attempt attempts sleeps logs
    rw [fetchGo]
    show (if (429 : Nat) = 429 then
        fetchGo (oracleAll429 : Nat → AttemptResult Nat) m b f (attempt + 1) (attempts + 1)
          (sleeps ++ [b * 2 ^ attempt]) (logs ++ [FetchLog.rateLimited (b * 2 ^ attempt)])
      else ⟨.raised (.clientResponseError 429), attempts + 1, sleeps, logs⟩) = _
    rw [if_pos rfl, ih]
    rw [List.range'_succ]
    simp [List.append_assoc]
    omega

/-- C2 (amended): a non-429 HTTP error response is re-raised at once on
the attempt where it occurs (here attempt 0), with no log, no sleep and no
further attempt; a transport error (any non-ClientResponseError exception)
is logged every time, re-raised on the final allowed attempt — so after
exactly max_retries attempts when every attempt fails that way — and
followed on every earlier attempt by a flat base_delay sleep; and when the
loop exhausts all attempts without a raise (max_retries consecutive 429
responses), the call silently returns None instead of failing. -/
theorem fetch_retry_exhaustion (m b s : Nat) (e : Nat → String)
    (hm : 1 ≤ m) (hs : s ≠ 429) :
    fetch_with_retry (oracleHttpFailure s : Nat → AttemptResult Nat) m b =
      ⟨.raised (.clientResponseError s), 1, [], []⟩
    ∧ fetch_with_retry (oracleAllExn e : Nat → AttemptResult Nat) m b =
      ⟨.raised (.exn (e (m - 1))), m, List.replicate (m - 1) b,
        (List.range m).map (fun i => FetchLog.errorFetching (e i))⟩
    ∧ fetch_with_retry (oracleAll429 : Nat → AttemptResult Nat) m b =
      ⟨.val none, m, (List.range m).map (fun i => b * 2 ^ i),
        (List.range m).map (fun i => FetchLog.rateLimited (b * 2 ^ i))⟩ := by
  refine ⟨?_, ?_, ?_⟩
  · obtain ⟨m', rfl⟩ : ∃ m', m = m' + 1 := ⟨m - 1, by omega⟩
    show (if s = 429 then
        fetchGo (oracleHttpFailure s) (m' + 1) b m' (0 + 1) (0 + 1)
          ([] ++ [b * 2 ^ 0]) ([] ++ [FetchLog.rateLimited (b * 2 ^ 0)])
      else ⟨FetchResult.raised (FetchErr.clientResponseError s), 0 + 1, [], []⟩) =
      ⟨FetchResult.raised (FetchErr.clientResponseError s), 1, [], []⟩
    rw [if_neg hs]
  · rw [fetch_with_retry, fetchGo_allExn e m b m 0 0 [] [] (by omega) (by omega)]
    simp [List.range_eq_range' m]
  · rw [fetch_with_retry, fetchGo_all429 m b m 0 0 [] []]
    simp [List.range_eq_range' m]

/-- Witness for fetch_retry_exhaustion at max_retries = 5, base_delay = 1,
status 500 and a constant exception message. -/
theorem fetch_retry_exhaustion_witness :
    fetch_with_retry (oracleHttpFailure 500 : Nat → AttemptResult Nat) 5 1 =
      ⟨.raised (.clientResponseError 500), 1, [], []⟩
    ∧ fetch_with_retry (oracleAllExn (fun _ => "boom") : Nat → AttemptResult Nat) 5 1 =
      ⟨.raised (.exn ((fun _ : Nat => "boom") (5 - 1))), 5, List.replicate (5 - 1) 1,
        (List.range 5).map (fun i => FetchLog.errorFetching ((fun _ : Nat => "boom") i))⟩
    ∧ fetch_with_retry (oracleAll429 : Nat → AttemptResult Nat) 5 1 =
      ⟨.val none, 5, (List.range 5).map (fun i => 1 * 2 ^ i),
        (List.range 5).map (fun i => FetchLog.rateLimited (1 * 2 ^ i))⟩ :=
  fetch_retry_exhaustion 5 1 500 (fun _ => "boom") (by omega) (by decide)

/-- Result of one enrichment task as seen by asyncio.gather with
return_exceptions=True: either the value fetch_package_info returned
(a record, or None) or the exception object the task raised. -/
inductive TaskResult where
  | val (r : Option PackageRecord)
  | exn (msg : String)
  deriving DecidableEq

/-- Python truthiness of a task result as tested by the elif in
process_packages: true exactly for a (non-empty-dict) record. -/
def isTruthy : TaskResult → Bool
  | .val (some _) => true
  | _ => false

/-- The six keys of the processed_packages dict literal initialized in
process_packages (src lines 207-214), in source order. -/
def sixEcosystems : List String := ["PyPI", "NuGet", "npm", "Ruby", "PHP", "Rust"]

/-- The processed_packages dict right after its initialization: the six
fixed ecosystem keys, each mapped to an empty list. -/
def initReport : List (String × List PackageRecord) :=
  sixEcosystems.map (fun k => (k, []))

/-- Python dict access d[key] on a string-keyed dict modelled as an
insertion-ordered association list; none models a KeyError. -/
def lookupKey : List (String × β) → String → Option β
  | [], _ => none
  | (k, v) :: rest, key => if k = key then some v else lookupKey rest key

/-- The task list of process_packages: one (package_type, package) pair
per entry of each ecosystem's list, in dict-iteration order - duplicates
are kept and scheduled independently. -/
def flattenPairs (packages : List (String × List String)) : List (String × String) :=
  packages.flatMap (fun p => p.2.map (fun n => (p.1, n)))

/-- processed_packages[package_type].append(result): returns the updated
dict, or none when the key is missing (Python would raise KeyError). -/
def appendAt : List (String × List PackageRecord) → String → PackageRecord →
    Option (List (String × List PackageRecord))
  | [], _, _ => none
  | (k, l) :: rest, key, r =>
    if k = key then some ((k, l ++ [r]) :: rest)
    else (appendAt rest key r).map (fun m => (k, l) :: m)

/-- The aggregation loop of process_packages (src lines 216-221): walks
the zip of (package_type, task) pairs with the gathered results; an
exception object is logged (recorded in the second component) and
dropped; a truthy result is appended to its ecosystem's list; a falsy one
is skipped.  The first component is none when an append raised KeyError
and aborted the batch. -/
def ppLoop : List ((String × String) × TaskResult) → List (String × List PackageRecord) →
    List (String × String) →
    Option (List (String × List PackageRecord)) × List (String × String)
  | [], rep, logs => (some rep, logs)
  | (p, res) :: rest, rep, logs =>
    match res with
    | .exn m => ppLoop rest rep (logs ++ [(p.1, m)])
    | .val none => ppLoop rest rep logs
    | .val (some r) =>
      match appendAt rep p.1 r with
      | none => (none, logs)
      | some rep2 => ppLoop rest rep2 logs

/-- Observable outcome of process_packages: the scheduled (ecosystem,
name) pairs, the returned dict (none if an exception escaped the batch),
and the per-task error log entries (package_type, message). -/
structure ProcessTrace where
  attempted : List (String × String)
  report : Option (List (String × List PackageRecord))
  errors : List (String × String)
  deriving DecidableEq

/-- process_packages(packages) with each enrichment task's behaviour
abstracted as a function from (package_type, package) to its TaskResult -
the source schedules fetch_package_info for every pair and gathers with
return_exceptions=True, then runs the aggregation loop over the fixed
six-key dict. -/
def process_packages (task : String → String → TaskResult)
    (packages : List (String × List String)) : ProcessTrace :=
  let tasks := flattenPairs packages
  let out := ppLoop (tasks.map (fun p => (p, task p.1 p.2))) initReport []
  ⟨tasks, out.1, out.2⟩

/-- The records the batch should emit for ecosystem k: one per scheduled
pair of that ecosystem whose task produced a truthy record, in order. -/
def taskRecords (task : String → String → TaskResult)
    (packages : List (String × List String)) (k : String) : List PackageRecord :=
  (flattenPairs packages).filterMap (fun p =>
    if p.1 = k then
      match task p.1 p.2 with
      | .val (some r) => some r
      | _ => none
    else none)

/-- The error log entries the batch should emit: one per scheduled pair
whose task raised, in order. -/
def taskErrors (task : String → String → TaskResult)
    (packages : List (String × List String)) : List (String × String) :=
  (flattenPairs packages).filterMap (fun p =>
    match task p.1 p.2 with
    | .exn m => some (p.1, m)
    | _ => none)

/-- taskRecords restated over an already-zipped pending list. -/
def pendingRecords (pending : List ((String × String) × TaskResult)) (k : String) :
    List PackageRecord :=
  pending.filterMap (fun q =>
    if q.1.1 = k then
      match q.2 with
      | .val (some r) => some r
      | _ => none
    else none)

/-- taskErrors restated over an already-zipped pending list. -/
def pendingErrors (pending : List ((String × String) × TaskResult)) :
    List (String × String) :=
  pending.filterMap (fun q =>
    match q.2 with
    | .exn m => some (q.1.1, m)
    | _ => none)

theorem appendAt_spec (key : String) (r : PackageRecord) :
    ∀ rep, key ∈ rep.map Prod.fst →
    ∃ rep2, appendAt rep key r = some rep2 ∧
      rep2.map Prod.fst = rep.map Prod.fst ∧
      ∀ k, lookupKey rep2 k =
        if key = k then (lookupKey rep k).map (fun l => l ++ [r]) else lookupKey rep k := by
  intro rep
  induction rep with
  | nil => intro hmem; simp at hmem
  | cons hd rest ih =>
    obtain ⟨k0, l0⟩ := hd
    intro hmem
    by_cases hk : k0 = key
    · subst hk
      refine ⟨(k0, l0 ++ [r]) :: rest, by simp [appendAt], by simp, ?_⟩
      intro k
      by_cases hkk : k0 = k
      · subst hkk
        simp [lookupKey]
      · simp [lookupKey, hkk]
    · have hmem2 : key ∈ rest.map Prod.fst := by
        simp at hmem
        rcases hmem with h | h
        · exact absurd h.symm hk
        · simpa using h
      obtain ⟨rest2, heq, hkeys, hlook⟩ := ih hmem2
      refine ⟨(k0, l0) :: rest2, by simp [appendAt, hk, heq], by simp [hkeys], ?_⟩
      intro k
      by_cases hkk : k0 = k
      · subst hkk
        have hne : ¬ key = k0 := fun h => hk h.symm
        simp [lookupKey, hne]
      · simp [lookupKey, hkk, hlook k]

theorem ppLoop_spec :
    ∀ pending rep logs,
    (∀ q ∈ pending, isTruthy q.2 = true → q.1.1 ∈ rep.map Prod.fst) →
    ∃ rep2, ppLoop pending rep logs = (some rep2, logs ++ pendingErrors pending) ∧
      rep2.map Prod.fst = rep.map Prod.fst ∧
      ∀ k, lookupKey rep2 k =
        (lookupKey rep k).map (fun l => l ++ pendingRecords pending k) := by
  intro pending
  induction pending with
  | nil =>
    intro rep logs _
    refine ⟨rep, by simp [ppLoop, pendingErrors], rfl, ?_⟩
    intro k
    cases lookupKey rep k <;> simp [pendingRecords]
  | cons q rest ih =>
    obtain ⟨p, res⟩ := q
    intro rep logs H
    match res with
    | .exn m =>
      obtain ⟨rep2, heq, hkeys, hlook⟩ := ih rep (logs ++ [(p.1, m)])
        (fun q hq ht => H q (List.mem_cons_of_mem _ hq) ht)
      refine ⟨rep2, ?_, hkeys, ?_⟩
      · rw [ppLoop, heq]
        simp [pendingErrors, List.filterMap_cons]
      · intro k
        rw [hlook k]
        have : pendingRecords ((p, TaskResult.exn m) :: rest) k = pendingRecords rest k := by
          simp [pendingRecords, List.filterMap_cons]
        rw [this]
    | .val none =>
      obtain ⟨rep2, heq, hkeys, hlook⟩ := ih rep logs
        (fun q hq ht => H q (List.mem_cons_of_mem _ hq) ht)
      refine ⟨rep2, ?_, hkeys, ?_⟩
      · rw [ppLoop, heq]
        simp [pendingErrors, List.filterMap_cons]
      · intro k
        rw [hlook k]
        have : pendingRecords ((p, TaskResult.val none) :: rest) k = pendingRecords rest k := by
          simp [pendingRecords, List.filterMap_cons]
        rw [this]
    | .val (some r) =>
      have hmem : p.1 ∈ rep.map Prod.fst :=
        H (p, TaskResult.val (some r)) (List.mem_cons_self _ _) rfl
      obtain ⟨rep1, happ, hkeys1, hlook1⟩ := appendAt_spec p.1 r rep hmem
      obtain ⟨rep2, heq, hkeys2, hlook2⟩ := ih rep1 logs
        (fun q hq ht => by rw [hkeys1]; exact H q (List.mem_cons_of_mem _ hq) ht)
      refine ⟨rep2, ?_, by rw [hkeys2, hkeys1], ?_⟩
      · rw [ppLoop, happ]
        show ppLoop rest rep1 logs = _
        rw [heq]
        simp [pendingErrors, List.filterMap_cons]
      · intro k
        rw [hlook2 k, hlook1 k]
        by_cases hpk : p.1 = k
        · have hrec : pendingRecords ((p, TaskResult.val (some r)) :: rest) k =
              r :: pendingRecords rest k := by
            simp [pendingRecords, List.filterMap_cons, hpk]
          rw [hrec, if_pos hpk]
          cases lookupKey rep k <;> simp
        · have hrec : pendingRecords ((p, TaskResult.val (some r)) :: rest) k =
              pendingRecords rest k := by
            simp [pendingRecords, List.filterMap_cons, hpk]
          rw [hrec, if_neg hpk]

theorem initReport_keys : initReport.map Prod.fst = sixEcosystems := rfl

theorem lookupKey_initReport (k : String) (hk : k ∈ sixEcosystems) :
    lookupKey initReport k = some [] := by
  simp only [sixEcosystems, List.mem_cons, List.not_mem_nil, or_false] at hk
  rcases hk with rfl | rfl | rfl | rfl | rfl | rfl <;> rfl

theorem pendingRecords_map (task : String → String → TaskResult)
    (tasks : List (String × String)) (k : String) :
    pendingRecords (tasks.map (fun p => (p, task p.1 p.2))) k =
      tasks.filterMap (fun p =>
        if p.1 = k then
          match task p.1 p.2 with
          | .val (some r) => some r
          | _ => none
        else none) := by
  rw [pendingRecords, List.filterMap_map]
  rfl

theorem pendingErrors_map (task : String → String → TaskResult)
    (tasks : List (String × String)) :
    pendingErrors (tasks.map (fun p => (p, task p.1 p.2))) =
      tasks.filterMap (fun p =>
        match task p.1 p.2 with
        | .exn m => some (p.1, m)
        | _ => none) := by
  rw [pendingErrors, List.filterMap_map]
  rfl

theorem process_packages_spec (task : String → String → TaskResult)
    (packages : List (String × List String))
    (H : ∀ p ∈ flattenPairs packages, isTruthy (task p.1 p.2) = true → p.1 ∈ sixEcosystems) :
    (process_packages task packages).attempted = flattenPairs packages ∧
    (process_packages task packages).errors = taskErrors task packages ∧
    ∃ rep, (process_packages task packages).report = some rep ∧
      rep.map Prod.fst = sixEcosystems ∧
      ∀ k, k ∈ sixEcosystems → lookupKey rep k = some (taskRecords task packages k) := by
  have Hpend : ∀ q ∈ (flattenPairs packages).map (fun p => (p, task p.1 p.2)),
      isTruthy q.2 = true → q.1.1 ∈ initReport.map Prod.fst := by
    intro q hq ht
    rw [initReport_keys]
    obtain ⟨p, hp, rfl⟩ := List.mem_map.mp hq
    exact H p hp ht
  obtain ⟨rep2, heq, hkeys, hlook⟩ := ppLoop_spec _ initReport [] Hpend
  refine ⟨rfl, ?_, rep2, ?_, by rw [hkeys, initReport_keys], ?_⟩
  · show ((ppLoop ((flattenPairs packages).map (fun p => (p, task p.1 p.2))) initReport []).2 =
      taskErrors task packages)
    rw [heq]
    simp [pendingErrors_map, taskErrors]
  · show ((ppLoop ((flattenPairs packages).map (fun p => (p, task p.1 p.2))) initReport []).1 =
      some rep2)
    rw [heq]
  · intro k hk
    rw [hlook k, lookupKey_initReport k hk]
    simp [pendingRecords_map, taskRecords]

/-- C1: for every input mapping and any per-pair task behaviour that only
produces truthy records for the six dict keys (as the source's
fetch_package_info does), process_packages schedules every (ecosystem,
name) pair exactly once; a task that raises is logged and contributes
nothing; no exception escapes the batch (the report is always returned);
each ecosystem's output list consists exactly of the truthy records of
its own pairs, in order - so one pair's failure never suppresses another
pair's record, and a pair whose task returned None (adapter absent)
appears nowhere in the output. -/
theorem process_packages_failure_isolation (task : String → String → TaskResult)
    (packages : List (String × List String))
    (H : ∀ p ∈ flattenPairs packages, isTruthy (task p.1 p.2) = true → p.1 ∈ sixEcosystems) :
    (process_packages task packages).attempted = flattenPairs packages ∧
    (process_packages task packages).errors = taskErrors task packages ∧
    ∃ rep, (process_packages task packages).report = some rep ∧
      rep.map Prod.fst = sixEcosystems ∧
      ∀ k, k ∈ sixEcosystems → lookupKey rep k = some (taskRecords task packages k) :=
  process_packages_spec task packages H

/-- Witness for process_packages_failure_isolation: a concrete batch in
which one task raises, one returns None and one returns a record. -/
theorem process_packages_failure_isolation_witness :
    (process_packages
      (fun t n => if n = "a" then TaskResult.exn "boom"
        else if t = "PyPI" then TaskResult.val (some ⟨"req", "d", "au", some "MIT", "u", "t", some false⟩)
        else TaskResult.val none)
      [("PyPI", ["a", "req"]), ("Ruby", ["gemx"])]).attempted =
      flattenPairs [("PyPI", ["a", "req"]), ("Ruby", ["gemx"])] ∧
    (process_packages
      (fun t n => if n = "a" then TaskResult.exn "boom"
        else if t = "PyPI" then TaskResult.val (some ⟨"req", "d", "au", some "MIT", "u", "t", some false⟩)
        else TaskResult.val none)
      [("PyPI", ["a", "req"]), ("Ruby", ["gemx"])]).errors =
      taskErrors
        (fun t n => if n = "a" then TaskResult.exn "boom"
          else if t = "PyPI" then TaskResult.val (some ⟨"req", "d", "au", some "MIT", "u", "t", some false⟩)
          else TaskResult.val none)
        [("PyPI", ["a", "req"]), ("Ruby", ["gemx"])] ∧
    ∃ rep, (process_packages
      (fun t n => if n = "a" then TaskResult.exn "boom"
        else if t = "PyPI" then TaskResult.val (some ⟨"req", "d", "au", some "MIT", "u", "t", some false⟩)
        else TaskResult.val none)
      [("PyPI", ["a", "req"]), ("Ruby", ["gemx"])]).report = some rep ∧
      rep.map Prod.fst = sixEcosystems ∧
      ∀ k, k ∈ sixEcosystems → lookupKey rep k =
        some (taskRecords
          (fun t n => if n = "a" then TaskResult.exn "boom"
            else if t = "PyPI" then TaskResult.val (some ⟨"req", "d", "au", some "MIT", "u", "t", some false⟩)
            else TaskResult.val none)
          [("PyPI", ["a", "req"]), ("Ruby", ["gemx"])] k) :=
  process_packages_failure_isolation _ _ (by decide)

theorem mem_flattenPairs_fst (packages : List (String × List String)) (p : String × String)
    (hp : p ∈ flattenPairs packages) : p.1 ∈ packages.map Prod.fst := by
  rw [flattenPairs, List.mem_flatMap] at hp
  obtain ⟨q, hq, hmem⟩ := hp
  obtain ⟨n, _, rfl⟩ := List.mem_map.mp hmem
  exact List.mem_map.mpr ⟨q, hq, rfl⟩

theorem taskRecords_eq_nil_of_not_input_key (task : String → String → TaskResult)
    (packages : List (String × List String)) (k : String)
    (hk : k ∉ packages.map Prod.fst) : taskRecords task packages k = [] := by
  rw [taskRecords, List.filterMap_eq_nil_iff]
  intro p hp
  have hne : p.1 ≠ k := fun h => hk (h ▸ mem_flattenPairs_fst packages p hp)
  rw [if_neg hne]

/-- C4 counterexample: with input mapping containing the single key PyPI,
the returned report nevertheless carries all six fixed ecosystem keys; in
particular it contains the key npm, which is not among the input keys. -/
theorem process_packages_extra_keys_counterexample :
    ((process_packages (fun _ _ => TaskResult.val none) [("PyPI", ["requests"])]).report.getD
      []).map Prod.fst = sixEcosystems
    ∧ "npm" ∈ ((process_packages (fun _ _ => TaskResult.val none)
        [("PyPI", ["requests"])]).report.getD []).map Prod.fst
    ∧ "npm" ∉ ["PyPI"] := by
  refine ⟨rfl, by decide, by decide⟩

/-- C4 (amended): the output report always carries exactly the six fixed
ecosystem keys of the dict literal, in order, whatever the input keys
are; an ecosystem key not present in the input has an empty list; and
every record appears under the ecosystem whose input entry produced it
(each list holds exactly the truthy results of its own pairs). -/
theorem process_packages_keys_and_membership (task : String → String → TaskResult)
    (packages : List (String × List String))
    (H : ∀ p ∈ flattenPairs packages, isTruthy (task p.1 p.2) = true → p.1 ∈ sixEcosystems) :
    ∃ rep, (process_packages task packages).report = some rep ∧
      rep.map Prod.fst = sixEcosystems ∧
      (∀ k, k ∈ sixEcosystems → k ∉ packages.map Prod.fst → lookupKey rep k = some []) ∧
      (∀ k, k ∈ sixEcosystems → lookupKey rep k = some (taskRecords task packages k)) := by
  obtain ⟨-, -, rep, hrep, hkeys, hlook⟩ := process_packages_spec task packages H
  refine ⟨rep, hrep, hkeys, ?_, hlook⟩
  intro k hk hkin
  rw [hlook k hk, taskRecords_eq_nil_of_not_input_key task packages k hkin]

/-- Witness for process_packages_keys_and_membership on a single-key
NuGet input whose task always returns None. -/
theorem process_packages_keys_and_membership_witness :
    ∃ rep, (process_packages (fun _ _ => TaskResult.val none) [("NuGet", ["x"])]).report =
      some rep ∧
      rep.map Prod.fst = sixEcosystems ∧
      (∀ k, k ∈ sixEcosystems → k ∉ ([("NuGet", ["x"])].map Prod.fst : List String) →
        lookupKey rep k = some []) ∧
      (∀ k, k ∈ sixEcosystems → lookupKey rep k =
        some (taskRecords (fun _ _ => TaskResult.val none) [("NuGet", ["x"])] k)) :=
  process_packages_keys_and_membership (fun _ _ => TaskResult.val none) [("NuGet", ["x"])]
    (by decide)

/-- Result of one call of fetch_package_info: the record it returns (with
has_known_vulnerability set) or none, together with whether the
vulnerability checker was queried at all. -/
structure FPIResult where
  info : Option PackageRecord
  vulnChecked : Bool
  deriving DecidableEq

/-- fetch_package_info(session, package_type, package_name), src lines
181-194: dispatches on the package_type tag to one of the three adapters
(whose behaviour is abstracted as functions py, nu, np from package name
to the Option record the adapter returns - the adapters catch all their
exceptions and return None on failure), yields None for every other tag,
and, only when a record was produced, queries the vulnerability checker
(abstracted as vuln) and sets has_known_vulnerability on the record. -/
def fetch_package_info (py nu np : String → Option PackageRecord)
    (vuln : String → String → Bool) (package_type package_name : String) : FPIResult :=
  let info : Option PackageRecord :=
    if package_type = "PyPI" then py package_name
    else if package_type = "NuGet" then nu package_name
    else if package_type = "npm" then np package_name
    else none
  match info with
  | some r =>
    ⟨some { r with has_known_vulnerability := some (vuln package_name package_type) }, true⟩
  | none => ⟨none, false⟩

/-- The task function process_packages actually schedules: the value
returned by fetch_package_info (this composition never raises, since the
adapters and the vulnerability checker catch their own exceptions). -/
def fpiTask (py nu np : String → Option PackageRecord)
    (vuln : String → String → Bool) : String → String → TaskResult :=
  fun t n => TaskResult.val ((fetch_package_info py nu np vuln t n).info)

theorem fpiTask_truthy_mem (py nu np : String → Option PackageRecord)
    (vuln : String → String → Bool) :
    ∀ p : String × String, isTruthy (fpiTask py nu np vuln p.1 p.2) = true →
      p.1 ∈ sixEcosystems := by
  intro p ht
  by_cases h1 : p.1 = "PyPI"
  · simp [sixEcosystems, h1]
  by_cases h2 : p.1 = "NuGet"
  · simp [sixEcosystems, h2]
  by_cases h3 : p.1 = "npm"
  · simp [sixEcosystems, h3]
  exfalso
  simp [fpiTask, fetch_package_info, h1, h2, h3, isTruthy] at ht

theorem fetch_package_info_no_adapter (py nu np : String → Option PackageRecord)
    (vuln : String → String → Bool) (k n : String)
    (hk : k = "Ruby" ∨ k = "PHP" ∨ k = "Rust") :
    fetch_package_info py nu np vuln k n = ⟨none, false⟩ := by
  rcases hk with rfl | rfl | rfl <;> rfl

theorem taskRecords_fpi_empty (py nu np : String → Option PackageRecord)
    (vuln : String → String → Bool) (packages : List (String × List String)) (k : String)
    (hk : k = "Ruby" ∨ k = "PHP" ∨ k = "Rust") :
    taskRecords (fpiTask py nu np vuln) packages k = [] := by
  rw [taskRecords, List.filterMap_eq_nil_iff]
  intro p hp
  by_cases hpk : p.1 = k
  · rw [if_pos hpk, hpk]
    have hnone : fetch_package_info py nu np vuln k p.2 = ⟨none, false⟩ :=
      fetch_package_info_no_adapter py nu np vuln k p.2 hk
    simp [fpiTask, hnone]
  · rw [if_neg hpk]

/-- C5: with the real task (fetch_package_info composed over any adapter
and vulnerability-checker behaviour) and any input mapping, the output
lists for Ruby, PHP and Rust are always empty, and for those three tags
fetch_package_info produces no record and never queries the
vulnerability checker, whatever names are supplied. -/
theorem ruby_php_rust_always_empty (py nu np : String → Option PackageRecord)
    (vuln : String → String → Bool) (packages : List (String × List String)) (n : String) :
    (∃ rep, (process_packages (fpiTask py nu np vuln) packages).report = some rep ∧
      lookupKey rep "Ruby" = some [] ∧ lookupKey rep "PHP" = some [] ∧
      lookupKey rep "Rust" = some []) ∧
    fetch_package_info py nu np vuln "Ruby" n = ⟨none, false⟩ ∧
    fetch_package_info py nu np vuln "PHP" n = ⟨none, false⟩ ∧
    fetch_package_info py nu np vuln "Rust" n = ⟨none, false⟩ := by
  obtain ⟨-, -, rep, hrep, -, hlook⟩ := process_packages_spec (fpiTask py nu np vuln) packages
    (fun p _ ht => fpiTask_truthy_mem py nu np vuln p ht)
  refine ⟨⟨rep, hrep, ?_, ?_, ?_⟩, ?_, ?_, ?_⟩
  · rw [hlook "Ruby" (by decide), taskRecords_fpi_empty py nu np vuln packages "Ruby" (by decide)]
  · rw [hlook "PHP" (by decide), taskRecords_fpi_empty py nu np vuln packages "PHP" (by decide)]
  · rw [hlook "Rust" (by decide), taskRecords_fpi_empty py nu np vuln packages "Rust" (by decide)]
  · exact fetch_package_info_no_adapter py nu np vuln "Ruby" n (by decide)
  · exact fetch_package_info_no_adapter py nu np vuln "PHP" n (by decide)
  · exact fetch_package_info_no_adapter py nu np vuln "Rust" n (by decide)

/-- Outcome of the single POST to the vulnerability database inside
check_vulnerability: an error (any exception - transport, HTTP status or
JSON parsing), or a response whose body carries the vulns list. -/
inductive VulnOutcome where
  | err (msg : String)
  | ok (vulns : List String)
  deriving DecidableEq

/-- The ecosystem_map dict of check_vulnerability (src lines 158-165). -/
def ecosystem_map : List (String × String) :=
  [("PyPI", "PyPI"), ("NuGet", "NuGet"), ("npm", "npm"),
   ("Ruby", "RubyGems"), ("PHP", "Packagist"), ("Rust", "crates.io")]

/-- Observable behaviour of one check_vulnerability call: the ecosystem
string placed in the query payload, and the boolean returned. -/
structure VulnCall where
  queried_ecosystem : String
  result : Bool
  deriving DecidableEq

/-- check_vulnerability(session, package_name, ecosystem), src lines
156-179: translates the internal tag via ecosystem_map.get(ecosystem,
ecosystem), posts the query (abstracted as the outcome oracle applied to
the name and the mapped tag), returns len(result.get("vulns", [])) > 0 on
success and false on any caught exception. -/
def check_vulnerability (outcome : String → String → VulnOutcome)
    (package_name ecosystem : String) : VulnCall :=
  let mapped := (lookupKey ecosystem_map ecosystem).getD ecosystem
  ⟨mapped,
    match outcome package_name mapped with
    | .err _ => false
    | .ok vulns => decide (0 < vulns.length)⟩

/-- C6: check_vulnerability never fails outward: an erroring query yields
false ("no known vulnerability"), a successful query yields exactly
whether the response's vulns list is non-empty; and the query is issued
under the vulnerability database's vocabulary: Ruby as RubyGems, PHP as
Packagist, Rust as crates.io, and PyPI, NuGet, npm unchanged. -/
theorem check_vulnerability_spec (outcome : String → String → VulnOutcome)
    (package_name ecosystem : String) :
    (check_vulnerability outcome package_name ecosystem).result =
      (match outcome package_name ((lookupKey ecosystem_map ecosystem).getD ecosystem) with
        | .err _ => false
        | .ok vulns => decide (vulns ≠ []))
    ∧ (check_vulnerability outcome package_name "Ruby").queried_ecosystem = "RubyGems"
    ∧ (check_vulnerability outcome package_name "PHP").queried_ecosystem = "Packagist"
    ∧ (check_vulnerability outcome package_name "Rust").queried_ecosystem = "crates.io"
    ∧ (check_vulnerability outcome package_name "PyPI").queried_ecosystem = "PyPI"
    ∧ (check_vulnerability outcome package_name "NuGet").queried_ecosystem = "NuGet"
    ∧ (check_vulnerability outcome package_name "npm").queried_ecosystem = "npm" := by
  refine ⟨?_, rfl, rfl, rfl, rfl, rfl, rfl⟩
  show (match outcome package_name ((lookupKey ecosystem_map ecosystem).getD ecosystem) with
    | .err _ => false
    | .ok vulns => decide (0 < vulns.length)) = _
  cases outcome package_name ((lookupKey ecosystem_map ecosystem).getD ecosystem) with
  | err m => rfl
  | ok vulns =>
    show decide (0 < vulns.length) = decide (vulns ≠ [])
    rw [decide_eq_decide]
    exact List.length_pos

/-- The compatible_pairs list of check_license_compatibility (src lines
229-233); each Python two-element set is modelled as an ordered pair and
membership of the set made of license1 and license2 is tested in both
orientations (all three sets have two distinct elements, so this
coincides with Python set equality). -/
def compatible_pairs : List (String × String) :=
  [("MIT", "Apache-2.0"), ("MIT", "BSD-3-Clause"), ("Apache-2.0", "BSD-3-Clause")]

/-- Equality of the Python sets made of a, b and of p's two components. -/
def setMem2 (a b : String) (p : String × String) : Bool :=
  (p.1 == a && p.2 == b) || (p.1 == b && p.2 == a)

/-- check_license_compatibility(license1, license2), src lines 226-234:
false when either side is Unknown, otherwise true iff the two strings
form one of the compatible pairs or are equal. -/
def check_license_compatibility (license1 license2 : String) : Bool :=
  if license1 = "Unknown" ∨ license2 = "Unknown" then false
  else compatible_pairs.any (setMem2 license1 license2) || license1 == license2

/-- C9: check_license_compatibility is symmetric in its two arguments. -/
theorem check_license_compatibility_symm (A B : String) :
    check_license_compatibility A B = check_license_compatibility B A := by
  rw [check_license_compatibility, check_license_compatibility]
  by_cases h : A = "Unknown" ∨ B = "Unknown"
  · rw [if_pos h, if_pos (Or.symm h)]
  · rw [if_neg h, if_neg (fun hh => h (Or.symm hh))]
    have hfun : setMem2 A B = setMem2 B A := by
      funext p
      exact Bool.or_comm _ _
    rw [hfun]
    have hbeq : (A == B) = (B == A) := by
      by_cases hab : A = B
      · rw [hab]
      · have h1 : (A == B) = false := by simp [hab]
        have h2 : (B == A) = false := by
          have : ¬ B = A := fun hh => hab hh.symm
          simp [this]
        rw [h1, h2]
    rw [hbeq]

/-- The license normalization applied in place by generate_markdown (src
lines 251-252): a license that is the string N/A, the empty string, or
Python None becomes Unknown; anything else is kept. -/
def normalize_license (l : Option String) : String :=
  match l with
  | some s => if s = "N/A" ∨ s = "" then "Unknown" else s
  | none => "Unknown"

/-- C10: normalization sends exactly N/A, the empty string and the absent
value to Unknown, leaves every other license string unchanged, and is
idempotent - renormalizing any already normalized value is a no-op. -/
theorem normalize_license_spec :
    (normalize_license (some "N/A") = "Unknown" ∧ normalize_license (some "") = "Unknown"
      ∧ normalize_license none = "Unknown")
    ∧ (∀ s : String, s ≠ "N/A" → s ≠ "" → normalize_license (some s) = s)
    ∧ (∀ l : Option String,
        normalize_license (some (normalize_license l)) = normalize_license l) := by
  refine ⟨⟨rfl, rfl, rfl⟩, ?_, ?_⟩
  · intro s h1 h2
    simp [normalize_license, h1, h2]
  · intro l
    match l with
    | none => rfl
    | some s =>
      by_cases h1 : s = "N/A"
      · subst h1; rfl
      by_cases h2 : s = ""
      · subst h2; rfl
      simp [normalize_license, h1, h2]

/-- Witness for normalize_license_spec: an ordinary license string is
left unchanged. -/
theorem normalize_license_spec_witness : normalize_license (some "MIT") = "MIT" :=
  normalize_license_spec.2.1 "MIT" (by decide) (by decide)

/-- The fields of data['info'] that get_pypi_info reads from a PyPI
response; none models an absent key.  The license key, when present, can
itself hold null (inner none) or a string. -/
structure PyPIInfoObj where
  name : Option String
  summary : Option String
  author : Option String
  license : Option (Option String)
  project_url : Option String
  version : Option String
  deriving DecidableEq

/-- The parts of a PyPI JSON response that get_pypi_info reads: the info
object and the releases dict mapping a version to its list of release
entries, each contributing its upload_time string. -/
structure PyPIResponse where
  info : Option PyPIInfoObj
  releases : List (String × List String)
  deriving DecidableEq

/-- get_pypi_info(session, package_name), src lines 38-56, applied to the
fetched payload (none models both a fetch failure handled by the except
block and a falsy body rejected by the "if not data" guard).  Every field
is read by direct indexing - info['name'], info['summary'],
info['author'], info['license'], info['project_url'],
data['releases'][info['version']][0]['upload_time'] - so any missing key
raises KeyError/IndexError, which the except block turns into None. -/
def get_pypi_info (data : Option PyPIResponse) : Option PackageRecord :=
  match data with
  | none => none
  | some d => do
    let info ← d.info
    let name ← info.name
    let summary ← info.summary
    let author ← info.author
    let license ← info.license
    let project_url ← info.project_url
    let version ← info.version
    let rel ← lookupKey d.releases version
    let upload_time ← rel.head?
    some ⟨name, summary, author, license, project_url, upload_time, none⟩

/-- The catalogEntry object of a NuGet registration leaf: id and
published are read by direct indexing, the other four via .get with the
default N/A. -/
structure NuGetCatalogEntry where
  id : Option String
  description : Option String
  authors : Option String
  licenseExpression : Option String
  projectUrl : Option String
  published : Option String
  deriving DecidableEq

/-- One leaf of a NuGet registration page ('catalogEntry' may be absent). -/
structure NuGetLeaf where
  catalogEntry : Option NuGetCatalogEntry
  deriving DecidableEq

/-- One page of the NuGet registration index ('items' may be absent). -/
structure NuGetPage where
  items : Option (List NuGetLeaf)
  deriving DecidableEq

/-- The parts of a NuGet registration index that get_nuget_info reads. -/
structure NuGetResponse where
  items : Option (List NuGetPage)
  deriving DecidableEq

/-- get_nuget_info(session, package_name), src lines 59-77, applied to
the fetched payload.  latest = data['items'][0]['items'][-1]
['catalogEntry'] by direct indexing (head of the pages, last leaf of the
first page); name and release_date read latest['id'] and
latest['published'] directly, while description, authors,
licenseExpression and projectUrl use .get with default N/A; any
KeyError/IndexError is caught and yields None. -/
def get_nuget_info (data : Option NuGetResponse) : Option PackageRecord :=
  match data with
  | none => none
  | some d => do
    let pages ← d.items
    let firstPage ← pages.head?
    let leaves ← firstPage.items
    let lastLeaf ← leaves.getLast?
    let latest ← lastLeaf.catalogEntry
    let id ← latest.id
    let published ← latest.published
    some ⟨id, latest.description.getD "N/A", latest.authors.getD "N/A",
      some (latest.licenseExpression.getD "N/A"), latest.projectUrl.getD "N/A",
      published, none⟩

/-- The author field of an npm response: a dict with an optional name
key, or a plain string. -/
inductive NpmAuthor where
  | obj (name : Option String)
  | str (s : String)
  deriving DecidableEq

/-- One entry of the versions dict of an npm response ('license' may be
absent). -/
structure NpmVersionEntry where
  license : Option String
  deriving DecidableEq

/-- The parts of an npm registry response that get_npm_info reads. -/
structure NpmResponse where
  name : Option String
  dist_tags : Option (List (String × String))
  versions : Option (List (String × NpmVersionEntry))
  description : Option String
  author : Option NpmAuthor
  homepage : Option String
  time : Option (List (String × String))
  deriving DecidableEq

/-- get_npm_info(session, package_name), src lines 80-99, applied to the
fetched payload.  data['name'], data['dist-tags']['latest'] and
data['versions'][tag] are direct indexing; description, author (dict or
string form), the latest version's license, homepage and the time entry
for the tag use .get with default N/A; any error yields None. -/
def get_npm_info (data : Option NpmResponse) : Option PackageRecord :=
  match data with
  | none => none
  | some d => do
    let name ← d.name
    let tags ← d.dist_tags
    let latestTag ← lookupKey tags "latest"
    let versions ← d.versions
    let latest ← lookupKey versions latestTag
    some ⟨name, d.description.getD "N/A",
      (match d.author with
        | some (.obj n) => n.getD "N/A"
        | some (.str s) => s
        | none => "N/A"),
      some (latest.license.getD "N/A"),
      d.homepage.getD "N/A",
      (lookupKey (d.time.getD []) latestTag).getD "N/A",
      none⟩

/-- A PyPI response answering every key get_pypi_info reads except
info['summary']. -/
def pypiRespNoSummary : PyPIResponse :=
  ⟨some ⟨some "requests", none, some "K. Reitz", some (some "Apache-2.0"),
    some "https://requests.example", some "1.0"⟩,
   [("1.0", ["2020-01-01T00:00:00"])]⟩

/-- C7 counterexample: in the PyPI adapter a missing field (here the
summary, i.e. the record's description) does not default to the string
N/A - the KeyError makes the whole record absent. -/
theorem pypi_missing_field_drops_record_counterexample :
    get_pypi_info (some pypiRespNoSummary) = none := rfl

/-- C7 (amended): the NuGet and npm adapters default their optional
fields (description, authors/author, license, project URL, and npm's
release date) to the literal string N/A when the registry omits them,
with license later normalized downstream; but the fields read by direct
indexing - every PyPI field (shown here for the summary), NuGet's id and
published, npm's name, dist-tags and versions entry - make the whole
record absent when missing instead of defaulting. -/
theorem adapter_field_defaulting (d : PyPIResponse) (i : PyPIInfoObj)
    (nd : NuGetResponse) (pages : List NuGetPage) (page : NuGetPage)
    (leaves : List NuGetLeaf) (leaf : NuGetLeaf) (latest : NuGetCatalogEntry)
    (nm pub : String)
    (md : NpmResponse) (tags : List (String × String)) (tag : String)
    (versions : List (String × NpmVersionEntry)) (v : NpmVersionEntry) (mnm : String)
    (hinfo : d.info = some i) (hsummary : i.summary = none)
    (h1 : nd.items = some pages) (h2 : pages.head? = some page)
    (h3 : page.items = some leaves) (h4 : leaves.getLast? = some leaf)
    (h5 : leaf.catalogEntry = some latest) (h6 : latest.id = some nm)
    (h7 : latest.published = some pub) (h8 : latest.description = none)
    (h9 : latest.authors = none) (h10 : latest.licenseExpression = none)
    (h11 : latest.projectUrl = none)
    (k1 : md.name = some mnm) (k2 : md.dist_tags = some tags)
    (k3 : lookupKey tags "latest" = some tag) (k4 : md.versions = some versions)
    (k5 : lookupKey versions tag = some v) (k6 : v.license = none)
    (k7 : md.description = none) (k8 : md.author = none)
    (k9 : md.homepage = none) (k10 : md.time = none) :
    get_pypi_info (some d) = none
    ∧ get_nuget_info (some nd) = some ⟨nm, "N/A", "N/A", some "N/A", "N/A", pub, none⟩
    ∧ get_npm_info (some md) = some ⟨mnm, "N/A", "N/A", some "N/A", "N/A", "N/A", none⟩ := by
  refine ⟨?_, ?_, ?_⟩
  · simp [get_pypi_info, hinfo, hsummary]
  · simp [get_nuget_info, h1, h2, h3, h4, h5, h6, h7, h8, h9, h10, h11]
  · simp [get_npm_info, lookupKey, k1, k2, k3, k4, k5, k6, k7, k8, k9, k10]

/-- Witness for adapter_field_defaulting on concrete registry responses:
a PyPI response missing its summary, and NuGet and npm responses that
answer only the required keys. -/
theorem adapter_field_defaulting_witness :
    get_pypi_info (some pypiRespNoSummary) = none
    ∧ get_nuget_info (some ⟨some [⟨some [⟨some ⟨some "Newtonsoft.Json", none, none, none,
        none, some "2020-02-02"⟩⟩]⟩]⟩) =
      some ⟨"Newtonsoft.Json", "N/A", "N/A", some "N/A", "N/A", "2020-02-02", none⟩
    ∧ get_npm_info (some ⟨some "left-pad", some [("latest", "1.3.0")],
        some [("1.3.0", ⟨none⟩)], none, none, none, none⟩) =
      some ⟨"left-pad", "N/A", "N/A", some "N/A", "N/A", "N/A", none⟩ :=
  adapter_field_defaulting pypiRespNoSummary
    ⟨some "requests", none, some "K. Reitz", some (some "Apache-2.0"),
      some "https://requests.example", some "1.0"⟩
    ⟨some [⟨some [⟨some ⟨some "Newtonsoft.Json", none, none, none, none,
      some "2020-02-02"⟩⟩]⟩]⟩
    [⟨some [⟨some ⟨some "Newtonsoft.Json", none, none, none, none, some "2020-02-02"⟩⟩]⟩]
    ⟨some [⟨some ⟨some "Newtonsoft.Json", none, none, none, none, some "2020-02-02"⟩⟩]⟩
    [⟨some ⟨some "Newtonsoft.Json", none, none, none, none, some "2020-02-02"⟩⟩]
    ⟨some ⟨some "Newtonsoft.Json", none, none, none, none, some "2020-02-02"⟩⟩
    ⟨some "Newtonsoft.Json", none, none, none, none, some "2020-02-02"⟩
    "Newtonsoft.Json" "2020-02-02"
    ⟨some "left-pad", some [("latest", "1.3.0")], some [("1.3.0", ⟨none⟩)],
      none, none, none, none⟩
    [("latest", "1.3.0")] "1.3.0" [("1.3.0", ⟨none⟩)] ⟨none⟩ "left-pad"
    rfl rfl rfl rfl rfl rfl rfl rfl rfl rfl rfl rfl rfl rfl rfl rfl rfl rfl rfl rfl rfl rfl rfl

/-- The in-place normalization generate_markdown applies to each package
before rendering and counting: the license value is replaced by its
normalized string. -/
def normalizeRecord (r : PackageRecord) : PackageRecord :=
  { r with license := some (normalize_license r.license) }

/-- The license string of an (already normalized) record, as the counting
and compatibility code of generate_markdown reads it. -/
def recLicense (r : PackageRecord) : String :=
  r.license.getD "Unknown"

/-- license_count[l] += 1 on a defaultdict(int) modelled as an
insertion-ordered association list: the first entry with this key is
incremented, a missing key is appended with count 1. -/
def bumpCount : List (String × Nat) → String → List (String × Nat)
  | [], l => [(l, 1)]
  | (k, c) :: rest, l =>
    if k = l then (k, c + 1) :: rest else (k, c) :: bumpCount rest l

/-- The all_packages list generate_markdown accumulates: every package of
every ecosystem list, in dict-iteration order, normalized in place. -/
def all_packages_of (packages : List (String × List PackageRecord)) : List PackageRecord :=
  (packages.flatMap Prod.snd).map normalizeRecord

/-- The license_count dict of generate_markdown (src line 263). -/
def license_count_of (packages : List (String × List PackageRecord)) : List (String × Nat) :=
  ((all_packages_of packages).map recLicense).foldl bumpCount []

/-- The unknown_license_packages list of generate_markdown (src 265-266). -/
def unknown_license_packages_of (packages : List (String × List PackageRecord)) :
    List PackageRecord :=
  (all_packages_of packages).filter (fun r => recLicense r == "Unknown")

/-- licenses_to_check (src line 279): the known licenses occurring more
than once, in first-occurrence order. -/
def licenses_to_check_of (packages : List (String × List PackageRecord)) : List String :=
  (license_count_of packages).filterMap (fun lc =>
    if 1 < lc.2 ∧ lc.1 ≠ "Unknown" then some lc.1 else none)

/-- All ordered pairs (l[i], l[j]) with i < j, exactly as the nested
loops "for i, license1 in enumerate(...): for license2 in ...[i+1:]"
enumerate them. -/
def pairsOf : List String → List (String × String)
  | [] => []
  | x :: xs => xs.map (fun y => (x, y)) ++ pairsOf xs

/-- The pairs actually compared by generate_markdown: the nested loops
run only under "if len(licenses_to_check) > 1" (src line 281). -/
def pairs_checked_of (packages : List (String × List PackageRecord)) :
    List (String × String) :=
  if 1 < (licenses_to_check_of packages).length
  then pairsOf (licenses_to_check_of packages) else []

/-- The flagged incompatibilities (src 284-293): each compared pair that
fails check_license_compatibility, together with the affected packages -
all aggregated records whose license is one of the two. -/
def flagged_of (packages : List (String × List PackageRecord)) :
    List ((String × String) × List PackageRecord) :=
  (pairs_checked_of packages).filterMap (fun p =>
    if check_license_compatibility p.1 p.2 then none
    else some (p, (all_packages_of packages).filter
      (fun r => recLicense r == p.1 || recLicense r == p.2)))

/-- The state the license-analysis part of generate_markdown (src lines
242-298) computes while rendering: the per-license counts, the aggregated
normalized records, the unknown-license list, the licenses selected for
pairwise checking, the pairs compared, and the flagged pairs with their
affected packages. -/
structure LicenseAnalysis where
  license_count : List (String × Nat)
  all_packages : List PackageRecord
  unknown_license_packages : List PackageRecord
  licenses_to_check : List String
  pairs_checked : List (String × String)
  flagged : List ((String × String) × List PackageRecord)
  deriving DecidableEq

/-- The license-analysis portion of generate_markdown(packages). -/
def generate_markdown_analysis (packages : List (String × List PackageRecord)) :
    LicenseAnalysis :=
  ⟨license_count_of packages, all_packages_of packages,
   unknown_license_packages_of packages, licenses_to_check_of packages,
   pairs_checked_of packages, flagged_of packages⟩

theorem lookupKey_bumpCount (l : String) :
    ∀ acc k, lookupKey (bumpCount acc l) k =
      if l = k then some ((lookupKey acc k).getD 0 + 1) else lookupKey acc k := by
  intro acc
  induction acc with
  | nil =>
    intro k
    by_cases h : l = k <;> simp [bumpCount, lookupKey, h]
  | cons hd rest ih =>
    obtain ⟨k0, c0⟩ := hd
    intro k
    by_cases hk0l : k0 = l
    · subst hk0l
      by_cases hk : k0 = k
      · subst hk
        simp [bumpCount, lookupKey]
      · simp [bumpCount, lookupKey, hk]
    · have hbump : bumpCount ((k0, c0) :: rest) l = (k0, c0) :: bumpCount rest l := by
        simp [bumpCount, hk0l]
      rw [hbump]
      by_cases hk : k0 = k
      · subst hk
        have hlk : ¬ l = k0 := fun hh => hk0l hh.symm
        simp [lookupKey, hlk]
      · simp [lookupKey, hk, ih k]

theorem lookupKey_foldl_bumpCount (ss : List String) :
    ∀ (acc : List (String × Nat)) (k : String),
      lookupKey (ss.foldl bumpCount acc) k =
        match lookupKey acc k with
        | some c => some (c + ss.count k)
        | none => if k ∈ ss then some (ss.count k) else none := by
  induction ss with
  | nil =>
    intro acc k
    cases h : lookupKey acc k <;> simp [h]
  | cons s rest ih =>
    intro acc k
    rw [List.foldl_cons, ih (bumpCount acc s) k, lookupKey_bumpCount s acc k]
    by_cases hsk : s = k
    · subst hsk
      have hcount : List.count s (s :: rest) = List.count s rest + 1 := by
        rw [List.count_cons]
        simp
      cases h : lookupKey acc s <;> simp [h, hcount] <;> omega
    · have hcount : List.count k (s :: rest) = List.count k rest := by
        rw [List.count_cons]
        have : (s == k) = false := by simp [hsk]
        simp [this]
      have hmem : (k ∈ s :: rest) ↔ (k ∈ rest) := by
        constructor
        · intro hh
          rcases List.mem_cons.mp hh with h1 | h1
          · exact absurd h1.symm hsk
          · exact h1
        · exact fun hh => List.mem_cons_of_mem _ hh
      rw [if_neg hsk]
      cases h : lookupKey acc k <;> simp [h, hcount, hmem]

theorem bumpCount_keys (l : String) :
    ∀ acc : List (String × Nat), (bumpCount acc l).map Prod.fst =
      if l ∈ acc.map Prod.fst then acc.map Prod.fst else acc.map Prod.fst ++ [l] := by
  intro acc
  induction acc with
  | nil => simp [bumpCount]
  | cons hd rest ih =>
    obtain ⟨k0, c0⟩ := hd
    by_cases h : k0 = l
    · subst h
      have hmem : k0 ∈ ((k0, c0) :: rest).map Prod.fst := by simp
      rw [if_pos hmem]
      simp [bumpCount]
    · have hbump : bumpCount ((k0, c0) :: rest) l = (k0, c0) :: bumpCount rest l := by
        simp [bumpCount, h]
      rw [hbump]
      have hiff : (l ∈ ((k0, c0) :: rest).map Prod.fst) ↔ l ∈ rest.map Prod.fst := by
        simp only [List.map_cons, List.mem_cons]
        constructor
        · intro hh
          rcases hh with h1 | h1
          · exact absurd h1.symm h
          · exact h1
        · exact fun hh => Or.inr hh
      by_cases hmem : l ∈ rest.map Prod.fst
      · rw [if_pos (hiff.mpr hmem)]
        simp only [List.map_cons, ih, if_pos hmem]
      · rw [if_neg (fun hh => hmem (hiff.mp hh))]
        simp only [List.map_cons, ih, if_neg hmem, List.cons_append]

theorem foldl_bumpCount_keys_nodup (ss : List String) :
    ∀ acc : List (String × Nat), (acc.map Prod.fst).Nodup →
      ((ss.foldl bumpCount acc).map Prod.fst).Nodup := by
  induction ss with
  | nil => intro acc h; exact h
  | cons s rest ih =>
    intro acc h
    rw [List.foldl_cons]
    refine ih (bumpCount acc s) ?_
    rw [bumpCount_keys s acc]
    by_cases hmem : s ∈ acc.map Prod.fst
    · rw [if_pos hmem]; exact h
    · rw [if_neg hmem]
      simp [List.nodup_append, h, hmem]

theorem lookupKey_eq_some_of_mem :
    ∀ (acc : List (String × β)), (acc.map Prod.fst).Nodup →
      ∀ q ∈ acc, lookupKey acc q.1 = some q.2 := by
  intro acc
  induction acc with
  | nil => intro _ q hq; simp at hq
  | cons hd rest ih =>
    obtain ⟨k0, v0⟩ := hd
    intro hnd q hq
    simp only [List.map_cons, List.nodup_cons] at hnd
    rcases List.mem_cons.mp hq with h1 | h1
    · subst h1
      simp [lookupKey]
    · have hl : q.1 ∈ rest.map Prod.fst := List.mem_map.mpr ⟨q, h1, rfl⟩
      have hne : ¬ k0 = q.1 := fun hh => hnd.1 (hh ▸ hl)
      simp only [lookupKey, if_neg hne]
      exact ih hnd.2 q h1

theorem mem_pairsOf :
    ∀ (l : List String) (p : String × String), p ∈ pairsOf l → p.1 ∈ l ∧ p.2 ∈ l := by
  intro l
  induction l with
  | nil => intro p hp; simp [pairsOf] at hp
  | cons x xs ih =>
    intro p hp
    rw [pairsOf] at hp
    rcases List.mem_append.mp hp with h | h
    · obtain ⟨y, hy, rfl⟩ := List.mem_map.mp h
      exact ⟨by simp, by simp [hy]⟩
    · obtain ⟨h1, h2⟩ := ih p h
      exact ⟨List.mem_cons_of_mem _ h1, List.mem_cons_of_mem _ h2⟩

theorem pairsOf_mem_or (a b : String) (hab : a ≠ b) :
    ∀ l : List String, a ∈ l → b ∈ l →
      (a, b) ∈ pairsOf l ∨ (b, a) ∈ pairsOf l := by
  intro l
  induction l with
  | nil => intro ha; simp at ha
  | cons x xs ih =>
    intro ha hb
    rcases List.mem_cons.mp ha with rfl | ha2
    · have hbxs : b ∈ xs := by
        rcases List.mem_cons.mp hb with h | h
        · exact absurd h.symm hab
        · exact h
      left
      rw [pairsOf]
      exact List.mem_append_left _ (List.mem_map.mpr ⟨b, hbxs, rfl⟩)
    · rcases List.mem_cons.mp hb with rfl | hb2
      · right
        rw [pairsOf]
        exact List.mem_append_left _ (List.mem_map.mpr ⟨a, ha2, rfl⟩)
      · rcases ih ha2 hb2 with h | h
        · left; rw [pairsOf]; exact List.mem_append_right _ h
        · right; rw [pairsOf]; exact List.mem_append_right _ h

theorem pairsOf_antisymm (a b : String) :
    ∀ l : List String, l.Nodup →
      (a, b) ∈ pairsOf l → (b, a) ∈ pairsOf l → False := by
  intro l
  induction l with
  | nil => intro _ h; simp [pairsOf] at h
  | cons x xs ih =>
    intro hnd hab hba
    rw [pairsOf] at hab hba
    have hndx := List.nodup_cons.mp hnd
    rcases List.mem_append.mp hab with h1 | h1
    · obtain ⟨y, hy, hey⟩ := List.mem_map.mp h1
      rw [Prod.mk.injEq] at hey
      rcases List.mem_append.mp hba with h2 | h2
      · obtain ⟨z, hz, hez⟩ := List.mem_map.mp h2
        rw [Prod.mk.injEq] at hez
        -- hey : x = a and y = b; hez : x = b and z = a, so x = a = z ∈ xs
        refine hndx.1 ?_
        rw [hey.1, ← hez.2]
        exact hz
      · -- (b, a) ∈ pairsOf xs, so b ∈ xs; but x = a and y = b with y ∈ xs
        refine hndx.1 ?_
        have hax : a ∈ xs := (mem_pairsOf xs (b, a) h2).2
        rw [hey.1]
        exact hax
    · rcases List.mem_append.mp hba with h2 | h2
      · obtain ⟨z, hz, hez⟩ := List.mem_map.mp h2
        rw [Prod.mk.injEq] at hez
        -- hez : x = b and z = a; (a, b) ∈ pairsOf xs gives b ∈ xs
        refine hndx.1 ?_
        have hbxs : b ∈ xs := (mem_pairsOf xs (a, b) h1).2
        rw [hez.1]
        exact hbxs
      · exact ih hndx.2 h1 h2

theorem pairsOf_nodup : ∀ l : List String, l.Nodup → (pairsOf l).Nodup := by
  intro l
  induction l with
  | nil => intro _; simp [pairsOf]
  | cons x xs ih =>
    intro hnd
    have hndx := List.nodup_cons.mp hnd
    rw [pairsOf, List.nodup_append]
    refine ⟨?_, ih hndx.2, ?_⟩
    · refine List.Nodup.map ?_ hndx.2
      intro y z h
      exact congrArg Prod.snd h
    · intro p hp hp2
      obtain ⟨y, hy, rfl⟩ := List.mem_map.mp hp
      exact hndx.1 ((mem_pairsOf xs (x, y) hp2).1)

theorem one_lt_length_of_two_mem (l : List String) (a b : String) (hab : a ≠ b)
    (ha : a ∈ l) (hb : b ∈ l) : 1 < l.length := by
  match l with
  | [] => simp at ha
  | [x] =>
    simp at ha hb
    exact absurd (ha.trans hb.symm) hab
  | x :: y :: rest =>
    simp only [List.length_cons]
    omega

theorem licenses_to_check_sublist (packages : List (String × List PackageRecord)) :
    List.Sublist (licenses_to_check_of packages) ((license_count_of packages).map Prod.fst) := by
  rw [licenses_to_check_of]
  generalize license_count_of packages = acc
  induction acc with
  | nil => simp
  | cons hd rest ih =>
    by_cases h : 1 < hd.2 ∧ hd.1 ≠ "Unknown"
    · simp only [List.filterMap_cons, if_pos h, List.map_cons]
      exact List.Sublist.cons₂ _ ih
    · simp only [List.filterMap_cons, if_neg h, List.map_cons]
      exact List.Sublist.cons _ ih

theorem license_count_keys_nodup (packages : List (String × List PackageRecord)) :
    ((license_count_of packages).map Prod.fst).Nodup :=
  foldl_bumpCount_keys_nodup _ [] (by simp)

theorem licenses_to_check_nodup (packages : List (String × List PackageRecord)) :
    (licenses_to_check_of packages).Nodup :=
  List.Nodup.sublist (licenses_to_check_sublist packages) (license_count_keys_nodup packages)

theorem mem_licenses_to_check (packages : List (String × List PackageRecord)) (l : String)
    (hl : l ∈ licenses_to_check_of packages) :
    l ≠ "Unknown" ∧ 1 < ((all_packages_of packages).map recLicense).count l := by
  obtain ⟨lc, hlc, hsome⟩ := List.mem_filterMap.mp hl
  by_cases h : 1 < lc.2 ∧ lc.1 ≠ "Unknown"
  · rw [if_pos h] at hsome
    injection hsome with hsome
    subst hsome
    refine ⟨h.2, ?_⟩
    have hlook : lookupKey (license_count_of packages) lc.1 = some lc.2 :=
      lookupKey_eq_some_of_mem _ (license_count_keys_nodup packages) lc hlc
    have hfold := lookupKey_foldl_bumpCount ((all_packages_of packages).map recLicense)
      [] lc.1
    rw [license_count_of] at hlook
    rw [hlook] at hfold
    by_cases hmem : lc.1 ∈ (all_packages_of packages).map recLicense
    · simp only [lookupKey, if_pos hmem] at hfold
      injection hfold with hfold
      rw [hfold] at h
      exact h.1
    · simp only [lookupKey, if_neg hmem] at hfold
      exact absurd hfold (by simp)
  · rw [if_neg h] at hsome
    exact absurd hsome (by simp)

theorem mem_pairs_checked (packages : List (String × List PackageRecord))
    (p : String × String) (hp : p ∈ pairs_checked_of packages) :
    p ∈ pairsOf (licenses_to_check_of packages) := by
  rw [pairs_checked_of] at hp
  by_cases h : 1 < (licenses_to_check_of packages).length
  · rwa [if_pos h] at hp
  · rw [if_neg h] at hp
    simp at hp

theorem check_license_compatibility_self (a : String) (ha : a ≠ "Unknown") :
    check_license_compatibility a a = true := by
  rw [check_license_compatibility, if_neg (by tauto)]
  simp

theorem check_license_compatibility_eq_false_iff (a b : String) (ha : a ≠ "Unknown")
    (hb : b ≠ "Unknown") :
    check_license_compatibility a b = false ↔
      (a ≠ b ∧ compatible_pairs.any (setMem2 a b) = false) := by
  rw [check_license_compatibility, if_neg (by tauto)]
  rw [Bool.or_eq_false_iff]
  constructor
  · intro ⟨h1, h2⟩
    refine ⟨?_, h1⟩
    intro hh
    rw [hh] at h2
    simp at h2
  · intro ⟨h1, h2⟩
    refine ⟨h2, ?_⟩
    simp [h1]

theorem flagged_iff_aux (packages : List (String × List PackageRecord)) (a b : String)
    (hmem : (a, b) ∈ pairs_checked_of packages)
    (ha : a ≠ "Unknown") (hb : b ≠ "Unknown") :
    ((a, b) ∈ (flagged_of packages).map Prod.fst) ↔
      (a ≠ b ∧ compatible_pairs.any (setMem2 a b) = false) := by
  rw [← check_license_compatibility_eq_false_iff a b ha hb]
  constructor
  · intro h
    obtain ⟨q, hq, hfst⟩ := List.mem_map.mp h
    obtain ⟨p, hp, hpq⟩ := List.mem_filterMap.mp hq
    by_cases hc : check_license_compatibility p.1 p.2 = true
    · rw [if_pos hc] at hpq
      exact absurd hpq (by simp)
    · rw [if_neg hc] at hpq
      injection hpq with hpq
      rw [← hpq] at hfst
      have hpab : p = (a, b) := hfst
      rw [hpab] at hc
      have hc2 : ¬ check_license_compatibility a b = true := by simpa using hc
      cases hcc : check_license_compatibility a b
      · rfl
      · exact absurd hcc hc2
  · intro hfalse
    apply List.mem_map.mpr
    refine ⟨((a, b), (all_packages_of packages).filter
      (fun r => recLicense r == a || recLicense r == b)), ?_, rfl⟩
    apply List.mem_filterMap.mpr
    refine ⟨(a, b), hmem, ?_⟩
    rw [if_neg (by simp [hfalse])]

/-- C8: in the license analysis of generate_markdown, only known
(non-Unknown) licenses occurring more than once among the aggregated
records are selected for pairwise evaluation; every unordered pair of the
selected licenses is considered exactly once (in one orientation, with no
duplicate comparisons); a considered pair is flagged potentially
incompatible exactly when the two strings differ and the pair is not in
the allow-list of compatible pairs; identical non-Unknown licenses are
compatible; Unknown enters no pairwise check and the unknown-license
packages are reported separately; and every flagged pair carries exactly
the aggregated records whose license is one of its two licenses. -/
theorem license_pairwise_evaluation (packages : List (String × List PackageRecord))
    (A : LicenseAnalysis) (hA : A = generate_markdown_analysis packages) :
    (∀ l ∈ A.licenses_to_check,
      l ≠ "Unknown" ∧ 1 < (A.all_packages.map recLicense).count l) ∧
    (∀ a b : String, a ∈ A.licenses_to_check → b ∈ A.licenses_to_check → a ≠ b →
      ((a, b) ∈ A.pairs_checked ∨ (b, a) ∈ A.pairs_checked)) ∧
    A.pairs_checked.Nodup ∧
    (∀ a b : String, (a, b) ∈ A.pairs_checked → (b, a) ∉ A.pairs_checked) ∧
    (∀ a b : String, (a, b) ∈ A.pairs_checked →
      (((a, b) ∈ A.flagged.map Prod.fst) ↔
        (a ≠ b ∧ compatible_pairs.any (setMem2 a b) = false))) ∧
    (∀ a : String, a ≠ "Unknown" → check_license_compatibility a a = true) ∧
    "Unknown" ∉ A.licenses_to_check ∧
    (∀ p ∈ A.pairs_checked, p.1 ≠ "Unknown" ∧ p.2 ≠ "Unknown") ∧
    A.unknown_license_packages =
      A.all_packages.filter (fun r => recLicense r == "Unknown") ∧
    (∀ q ∈ A.flagged, q.2 =
      A.all_packages.filter (fun r => recLicense r == q.1.1 || recLicense r == q.1.2)) := by
  subst hA
  refine ⟨?_, ?_, ?_, ?_, ?_, ?_, ?_, ?_, rfl, ?_⟩
  · intro l hl
    exact mem_licenses_to_check packages l hl
  · intro a b haa hbb hne
    have hlen := one_lt_length_of_two_mem _ a b hne haa hbb
    have hlen2 : 1 < (licenses_to_check_of packages).length := hlen
    have hpc : (generate_markdown_analysis packages).pairs_checked =
        pairsOf (licenses_to_check_of packages) := by
      show pairs_checked_of packages = _
      rw [pairs_checked_of, if_pos hlen2]
    rw [hpc]
    exact pairsOf_mem_or a b hne _ haa hbb
  · show (pairs_checked_of packages).Nodup
    rw [pairs_checked_of]
    by_cases h : 1 < (licenses_to_check_of packages).length
    · rw [if_pos h]
      exact pairsOf_nodup _ (licenses_to_check_nodup packages)
    · rw [if_neg h]
      simp
  · intro a b hab hba
    exact pairsOf_antisymm a b _ (licenses_to_check_nodup packages)
      (mem_pairs_checked _ _ hab) (mem_pairs_checked _ _ hba)
  · intro a b hab
    have hcomp := mem_pairsOf _ _ (mem_pairs_checked packages (a, b) hab)
    exact flagged_iff_aux packages a b hab
      (mem_licenses_to_check packages a hcomp.1).1
      (mem_licenses_to_check packages b hcomp.2).1
  · exact check_license_compatibility_self
  · intro hU
    exact (mem_licenses_to_check packages _ hU).1 rfl
  · intro p hp
    have hcomp := mem_pairsOf _ p (mem_pairs_checked packages p hp)
    exact ⟨(mem_licenses_to_check packages _ hcomp.1).1,
      (mem_licenses_to_check packages _ hcomp.2).1⟩
  · intro q hq
    obtain ⟨p, hp, hpq⟩ := List.mem_filterMap.mp hq
    by_cases hc : check_license_compatibility p.1 p.2 = true
    · rw [if_pos hc] at hpq
      exact absurd hpq (by simp)
    · rw [if_neg hc] at hpq
      injection hpq with hpq
      rw [← hpq]
      rfl

/-- A concrete report: two MIT packages, two GPL-3.0 packages and one
package with a null license. -/
def witnessPackages : List (String × List PackageRecord) :=
  [("PyPI",
    [⟨"p1", "d", "a", some "MIT", "u", "r", none⟩,
     ⟨"p2", "d", "a", some "MIT", "u", "r", none⟩,
     ⟨"p3", "d", "a", some "GPL-3.0", "u", "r", none⟩,
     ⟨"p4", "d", "a", some "GPL-3.0", "u", "r", none⟩,
     ⟨"p5", "d", "a", none, "u", "r", none⟩])]

/-- Witness for license_pairwise_evaluation on witnessPackages: MIT is
selected with count 2, the pair with GPL-3.0 is considered, and it is
flagged since it is not in the allow-list. -/
theorem license_pairwise_evaluation_witness :
    ("MIT" ≠ "Unknown" ∧
      1 < ((generate_markdown_analysis witnessPackages).all_packages.map recLicense).count "MIT")
    ∧ (("MIT", "GPL-3.0") ∈ (generate_markdown_analysis witnessPackages).pairs_checked ∨
        ("GPL-3.0", "MIT") ∈ (generate_markdown_analysis witnessPackages).pairs_checked)
    ∧ ((("MIT", "GPL-3.0") ∈ (generate_markdown_analysis witnessPackages).flagged.map Prod.fst) ↔
        ("MIT" ≠ "GPL-3.0" ∧ compatible_pairs.any (setMem2 "MIT" "GPL-3.0") = false)) := by
  have h := license_pairwise_evaluation witnessPackages
    (generate_markdown_analysis witnessPackages) rfl
  exact ⟨h.1 "MIT" (by decide),
    h.2.1 "MIT" "GPL-3.0" (by decide) (by decide) (by decide),
    h.2.2.2.2.1 "MIT" "GPL-3.0" (by decide)⟩
